import Mathlib

/-!
Shallow embedding of the sqlcache repository (Go) for checking its
natural-language specification.

The embedding translates, from the source:
  * `attr.go`            — the attribute parser `getAttrs` and the regexp
                           `(@cache-ttl|@cache-max-rows) (\d+)` applied with
                           `FindAllStringSubmatch(query, 2)`;
  * `interceptor.go`     — `ConnQueryContext`, `StmtQueryContext`,
                           `checkCache`, the `cacheSetter` closure and the
                           statistics counters;
  * `rows_recorder.go`   — the `rowsRecorder` row-capture adapter;
  * `rows_cached.go`     — the `rowsCached` replay cursor;
  * `hash.go`            — `defaultHashFunc` (the external structural hash
                           `hashstructure.Hash` is an abstract parameter).

Machine integers are modelled as `Nat`/`Int` with explicit wrapping or
clamping where Go overflows matter; Go errors are abstract values of a type
parameter `ε`; a Go `nil` pointer is `Option.none`.
-/

namespace Sqlcache

/-! ## Go primitives -/

/-- Largest value of Go's 64-bit `int`; `strconv.Atoi` clamps to it on range
overflow (returning `ErrRange`, which `getAttrs` discards). -/
def int64Lim : Int := 9223372036854775807

/-- Two-complement wrap of an integer into the signed 64-bit range, the
behaviour of Go `int64`/`time.Duration` arithmetic on overflow. -/
def wrap64 (x : Int) : Int := (x + 2 ^ 63) % 2 ^ 64 - 2 ^ 63

/-- Nanoseconds in `time.Second`. -/
def nsPerSecond : Int := 1000000000

/-- `time.Duration(t) * time.Second`: the TTL the interceptor hands to
`Cacher.Set`, as int64 nanoseconds. -/
def goDurationOfSeconds (t : Int) : Int := wrap64 (t * nsPerSecond)

/-- Value of a decimal digit string, accumulated onto `a`
(`foldl` mirrors Go's left-to-right digit accumulation). -/
def digitsVal (a : Nat) (ds : List Char) : Nat :=
  ds.foldl (fun x c => x * 10 + (c.toNat - 48)) a

/-- `strconv.Atoi` on a string that the regexp guarantees to be all digits
(`\d+`): the literal value, clamped to `int64Lim` on range overflow; the
accompanying error is discarded by the caller in `getAttrs`. -/
def goAtoiDigits (ds : List Char) : Int :=
  min ((digitsVal 0 ds : Nat) : Int) int64Lim

/-! ## attr.go — the attribute parser -/

/-- Match a literal character sequence at the head of the input, returning
the remainder on success. -/
def dropLit : List Char → List Char → Option (List Char)
  | [], cs => some cs
  | _ :: _, [] => none
  | l :: ls, c :: cs => if c = l then dropLit ls cs else none

/-- Split off the maximal leading run of ASCII digits (`\d+` is greedy). -/
def takeDigits : List Char → List Char × List Char
  | [] => ([], [])
  | c :: cs =>
    if c.isDigit then
      let p := takeDigits cs
      (c :: p.1, p.2)
    else ([], c :: cs)

/-- One attempt of the regexp `(@cache-ttl|@cache-max-rows) (\d+)` anchored
at the current position.  The two alternative literals diverge at their
eighth character, so trying them in the regexp's order is exhaustive.
Returns the captured directive name, the captured digit run and the
remaining input. -/
def matchAttrAt (cs : List Char) : Option (String × List Char × List Char) :=
  match dropLit "@cache-ttl ".data cs with
  | some rest =>
    let p := takeDigits rest
    if p.1.isEmpty then none else some ("@cache-ttl", p.1, p.2)
  | none =>
    match dropLit "@cache-max-rows ".data cs with
    | some rest =>
      let p := takeDigits rest
      if p.1.isEmpty then none else some ("@cache-max-rows", p.1, p.2)
    | none => none

/-- Leftmost, non-overlapping scan of the whole input for regexp matches,
resuming after each match, as `regexp.FindAllStringSubmatch` does.  The
fuel argument only bounds recursion: every step consumes at least one
character, so fuel `cs.length` never truncates the scan. -/
def findAttrAux : Nat → List Char → List (String × List Char)
  | 0, _ => []
  | fuel + 1, cs =>
    match matchAttrAt cs with
    | some (dir, ds, rest) => (dir, ds) :: findAttrAux fuel rest
    | none =>
      match cs with
      | [] => []
      | _ :: cs' => findAttrAux fuel cs'

/-- All matches of `attrRegexp` in the text, leftmost first. -/
def attrAllMatches (cs : List Char) : List (String × List Char) :=
  findAttrAux cs.length cs

/-- `attributes` from `attr.go`: the parsed caching policy. -/
structure attributes where
  ttl : Int
  maxRows : Int
deriving DecidableEq

/-- The body of the `switch match[1]` statement in `getAttrs`: each match
sets the field named by its first capture group. -/
def applyMatch (a : attributes) (m : String × List Char) : attributes :=
  if m.1 = "@cache-ttl" then { a with ttl := goAtoiDigits m.2 }
  else if m.1 = "@cache-max-rows" then { a with maxRows := goAtoiDigits m.2 }
  else a

/-- `getAttrs` from `attr.go`: `FindAllStringSubmatch(query, 2)` yields the
first two matches of the scan; if fewer than two exist the query has no
policy.  (The source's `len(match) != 3` guard never fires: the regexp
always produces exactly two capture groups.)  The `attributes` zero value
is `{ttl := 0, maxRows := 0}`. -/
def getAttrs (query : String) : Option attributes :=
  let ms := (attrAllMatches query.data).take 2
  if ms.length ≠ 2 then none
  else some (ms.foldl applyMatch { ttl := 0, maxRows := 0 })

/-! ## cache.Item and driver-level values

`driver.Value` is abstract (`α`); a Go error is abstract (`ε`); a possibly
nil Go pointer is an `Option`. -/

/-- `cache.Item`: the materialized result of one query. -/
structure Item (α : Type) where
  Cols : List String
  Rows : List (List α)
deriving DecidableEq

/-- The `error` result of a `driver.Rows.Next` call: `nil`, `io.EOF`, or a
real error. -/
inductive GoErr (ε : Type) where
  | nil : GoErr ε
  | eof : GoErr ε
  | err (e : ε) : GoErr ε
deriving DecidableEq

/-- Behaviour of one call to the underlying cursor's `Next`: it either
fills `dest` with a row (returning `nil`), or returns `io.EOF`, or returns
a read error. -/
inductive NextRes (α ε : Type) where
  | row (d : List α) : NextRes α ε
  | eof : NextRes α ε
  | err (e : ε) : NextRes α ε
deriving DecidableEq

/-- The error value the underlying `Next` returned for this behaviour. -/
def NextRes.retErr : NextRes α ε → GoErr ε
  | .row _ => .nil
  | .eof => .eof
  | .err e => .err e

/-! ## rowsRecorder — the row-capture adapter -/

/-- The `rowsRecorder` state: the item being accumulated plus the three
terminal flags and the configured bound. -/
structure rowsRecorder (α : Type) where
  itemCols : List String
  itemRows : List (List α)
  gotErr : Bool
  gotEOF : Bool
  maxRowsHit : Bool
  maxRows : Int
deriving DecidableEq

/-- `newRowsRecorder`: fresh state around a new (zero-valued) `cache.Item`. -/
def newRowsRecorder (maxRows : Int) : rowsRecorder α :=
  { itemCols := [], itemRows := [], gotErr := false, gotEOF := false,
    maxRowsHit := false, maxRows := maxRows }

/-- `rowsRecorder.Columns`: records the underlying column names into the
item and returns them. -/
def rowsRecorder.setCols (r : rowsRecorder α) (cols : List String) :
    rowsRecorder α × List String :=
  ({ r with itemCols := cols }, cols)

/-- `rowsRecorder.Next`: forward the underlying call, record EOF/error
flags, then — unless a terminal condition holds — either mark the max-rows
bound as hit or append a defensive copy of the row to the item.  The
returned error is always exactly the underlying cursor's (transparency). -/
def rowsRecorder.next (r : rowsRecorder α) (res : NextRes α ε) :
    rowsRecorder α × GoErr ε :=
  let r1 :=
    match res with
    | .eof => { r with gotEOF := true }
    | .err _ => { r with gotErr := true }
    | .row _ => r
  if r1.gotEOF || r1.gotErr || r1.maxRowsHit then (r1, res.retErr)
  else if (r1.itemRows.length : Int) = r1.maxRows then
    ({ r1 with maxRowsHit := true }, res.retErr)
  else
    match res with
    | .row d => ({ r1 with itemRows := r1.itemRows ++ [d] }, res.retErr)
    | _ => (r1, res.retErr)

/-- `rowsRecorder.Close`: close the underlying cursor first; on its error,
set `gotErr` and return that error without committing.  Otherwise commit
(call the setter) exactly when EOF was reached with no error and without
hitting the bound.  Returns the new state, the error returned to the
caller, and whether the setter was invoked. -/
def rowsRecorder.closeRec (r : rowsRecorder α) (closeErr : Option ε) :
    rowsRecorder α × Option ε × Bool :=
  match closeErr with
  | some e => ({ r with gotErr := true }, some e, false)
  | none =>
    if r.gotEOF && !r.gotErr && !r.maxRowsHit then (r, none, true)
    else (r, none, false)

/-- How a consumption of the underlying cursor ends: end-of-data, a read
error, or the caller stopping early. -/
inductive TraceEnd (ε : Type) where
  | eofEnd : TraceEnd ε
  | errEnd (e : ε) : TraceEnd ε
  | stopEnd : TraceEnd ε
deriving DecidableEq

/-- The `Next`-call behaviours a terminator contributes. -/
def TraceEnd.toTrace : TraceEnd ε → List (NextRes α ε)
  | .eofEnd => [.eof]
  | .errEnd e => [.err e]
  | .stopEnd => []

/-- The behaviour trace of an underlying cursor that yields `rows` and then
ends as `t` (`database/sql` stops calling `Next` at the first non-nil
return). -/
def mkTrace (rows : List (List α)) (t : TraceEnd ε) : List (NextRes α ε) :=
  rows.map .row ++ t.toTrace

/-- The state transition of one recorder `Next` call. -/
def recStep : rowsRecorder α → NextRes α ε → rowsRecorder α :=
  fun r res => (r.next res).1

/-- Recorder state after `Columns` and the whole sequence of `Next` calls. -/
def recRun (maxRows : Int) (cols : List String) (trace : List (NextRes α ε)) :
    rowsRecorder α :=
  trace.foldl recStep ((newRowsRecorder maxRows).setCols cols).1

/-- One call to `Cacher.Set` as issued by the interceptor's `cacheSetter`
closure: the captured key, the accumulated item, and the TTL in int64
nanoseconds. -/
structure SetCall (α : Type) where
  key : String
  item : Item α
  ttlNs : Int
deriving DecidableEq

/-- The `Cacher.Set` calls produced by a whole miss-path consumption:
running the recorder over the trace and closing it.  At most one call can
occur, upon `Close`. -/
def missSetCalls (key : String) (ttlNs : Int) (maxRows : Int)
    (cols : List String) (trace : List (NextRes α ε)) (closeErr : Option ε) :
    List (SetCall α) :=
  let r := recRun maxRows cols trace
  if (r.closeRec closeErr).2.2 then
    [{ key := key, item := { Cols := r.itemCols, Rows := r.itemRows }, ttlNs := ttlNs }]
  else []

/-! ## rowsCached — the replay cursor -/

/-- Go's `copy(dest, src)`: overwrite the first `min |src| |dest|` entries
of `dest` with those of `src`. -/
def goCopy (dest src : List α) : List α :=
  let n := min src.length dest.length
  src.take n ++ dest.drop n

/-- `rowsCached`: the embedded `*cache.Item` pointer (possibly nil) and the
replay position. -/
structure rowsCached (α : Type) where
  item : Option (Item α)
  ptr : Nat
deriving DecidableEq

/-- Body of `rowsCached.Columns` after dereferencing the item pointer. -/
def itemColumns (it : Item α) : List String := it.Cols

/-- Body of `rowsCached.Next` after dereferencing the item pointer: EOF at
or beyond the row count, otherwise copy the current row into `dest` and
advance.  Returns (returned error, dest contents, new position). -/
def itemNext (it : Item α) (ptr : Nat) (dest : List α) : GoErr ε × List α × Nat :=
  if it.Rows.length ≤ ptr then (.eof, dest, ptr)
  else (.nil, goCopy dest (it.Rows.getD ptr []), ptr + 1)

/-- `rowsCached.Columns`: dereferences the item pointer with no nil check;
`none` models the nil-pointer panic. -/
def rowsCached.columns (r : rowsCached α) : Option (List String) :=
  r.item.map itemColumns

/-- `rowsCached.Next`: dereferences the item pointer with no nil check;
`none` models the nil-pointer panic. -/
def rowsCached.next (r : rowsCached α) (dest : List α) :
    Option (GoErr ε × List α × rowsCached α) :=
  r.item.map fun it =>
    let o := itemNext (ε := ε) it r.ptr dest
    (o.1, o.2.1, { r with ptr := o.2.2 })

/-- `rowsCached.Close`: returns nil unconditionally. -/
def rowsCached.closeRec (_ : rowsCached α) : Option ε := none

/-! ## interceptor.go — checkCache and the two query entry points -/

/-- Result of `Cacher.Get`: item pointer (possibly nil), found flag,
error. -/
structure GetResult (α ε : Type) where
  item : Option (Item α)
  ok : Bool
  err : Option ε
deriving DecidableEq

/-- The wrapped errors handed to the `OnError` hook
(`fmt.Errorf("...: %w", err)`). -/
inductive WrappedErr (ε : Type) where
  | hashFuncFailed (e : ε) : WrappedErr ε
  | cacheGetFailed (e : ε) : WrappedErr ε
  | cacheSetFailed (e : ε) : WrappedErr ε
deriving DecidableEq

/-- Effects of `Interceptor.checkCache`: the returned cursor (nil on miss
or backend error) and the counter increments and hook invocations. -/
structure CheckOut (α ε : Type) where
  rows : Option (rowsCached α)
  hits : Nat
  misses : Nat
  errors : Nat
  hooks : List (WrappedErr ε)
deriving DecidableEq

/-- `Interceptor.checkCache`: backend error → count error, invoke hook,
return nil; not found → count miss, return nil; found → count hit and wrap
the item pointer in a `rowsCached` with position 0 (no nil check). -/
def checkCache (g : GetResult α ε) : CheckOut α ε :=
  match g.err with
  | some e => { rows := none, hits := 0, misses := 0, errors := 1, hooks := [.cacheGetFailed e] }
  | none =>
    if !g.ok then { rows := none, hits := 0, misses := 1, errors := 0, hooks := [] }
    else { rows := some { item := g.item, ptr := 0 }, hits := 1, misses := 0, errors := 0, hooks := [] }

/-- The `cacheSetter` closure of `ConnQueryContext`/`StmtQueryContext`: a
failing `Cacher.Set` increments the error counter and invokes the hook
with the wrapped error; a successful one does neither.  In either case
nothing else is affected.  Returns (error-counter delta, hook calls). -/
def cacheSetterEffect (setErr : Option ε) : Nat × List (WrappedErr ε) :=
  match setErr with
  | some e => (1, [.cacheSetFailed e])
  | none => (0, [])

/-- The rows value a query entry point returns to `database/sql`. -/
inductive RowsOut (α : Type) where
  | passthrough : RowsOut α
  | recorder (key : String) (ttlNs : Int) (maxRows : Int) : RowsOut α
  | cached (c : rowsCached α) : RowsOut α
deriving DecidableEq

/-- Observable outcome of one `ConnQueryContext`/`StmtQueryContext` call:
what is returned, the counter increments, the hook invocations, and which
collaborators were consulted. -/
structure QueryOut (α ε : Type) where
  rows : RowsOut α
  err : Option ε
  hits : Nat
  misses : Nat
  errors : Nat
  hooks : List (WrappedErr ε)
  liveCalled : Bool
  hashCalled : Bool
  getCalled : Bool
deriving DecidableEq

/-- `Interceptor.ConnQueryContext`, with the outcomes of the three
collaborator calls (`HashFunc`, `Cacher.Get`, the live
`conn.QueryContext`) as parameters.  `passthrough` means the live rows are
returned unchanged. -/
def connQueryContext (disabled : Bool) (query : String)
    (hashRes : Except ε String) (g : GetResult α ε) (liveErr : Option ε) :
    QueryOut α ε :=
  if disabled then
    { rows := .passthrough, err := liveErr, hits := 0, misses := 0, errors := 0,
      hooks := [], liveCalled := true, hashCalled := false, getCalled := false }
  else
    match getAttrs query with
    | none =>
      { rows := .passthrough, err := liveErr, hits := 0, misses := 0, errors := 0,
        hooks := [], liveCalled := true, hashCalled := false, getCalled := false }
    | some attrs =>
      match hashRes with
      | .error e =>
        { rows := .passthrough, err := liveErr, hits := 0, misses := 0, errors := 1,
          hooks := [.hashFuncFailed e], liveCalled := true, hashCalled := true,
          getCalled := false }
      | .ok hash =>
        let c := checkCache g
        match c.rows with
        | some rc =>
          { rows := .cached rc, err := none, hits := c.hits, misses := c.misses,
            errors := c.errors, hooks := c.hooks, liveCalled := false,
            hashCalled := true, getCalled := true }
        | none =>
          match liveErr with
          | some e =>
            { rows := .passthrough, err := some e, hits := c.hits, misses := c.misses,
              errors := c.errors, hooks := c.hooks, liveCalled := true,
              hashCalled := true, getCalled := true }
          | none =>
            { rows := .recorder hash (goDurationOfSeconds attrs.ttl) attrs.maxRows,
              err := none, hits := c.hits, misses := c.misses, errors := c.errors,
              hooks := c.hooks, liveCalled := true, hashCalled := true,
              getCalled := true }

/-- `Interceptor.StmtQueryContext`: the prepared-statement entry point; its
body duplicates `ConnQueryContext` except for how the live call is issued
(`conn.QueryContext(ctx, args)`). -/
def stmtQueryContext (disabled : Bool) (query : String)
    (hashRes : Except ε String) (g : GetResult α ε) (liveErr : Option ε) :
    QueryOut α ε :=
  if disabled then
    { rows := .passthrough, err := liveErr, hits := 0, misses := 0, errors := 0,
      hooks := [], liveCalled := true, hashCalled := false, getCalled := false }
  else
    match getAttrs query with
    | none =>
      { rows := .passthrough, err := liveErr, hits := 0, misses := 0, errors := 0,
        hooks := [], liveCalled := true, hashCalled := false, getCalled := false }
    | some attrs =>
      match hashRes with
      | .error e =>
        { rows := .passthrough, err := liveErr, hits := 0, misses := 0, errors := 1,
          hooks := [.hashFuncFailed e], liveCalled := true, hashCalled := true,
          getCalled := false }
      | .ok hash =>
        let c := checkCache g
        match c.rows with
        | some rc =>
          { rows := .cached rc, err := none, hits := c.hits, misses := c.misses,
            errors := c.errors, hooks := c.hooks, liveCalled := false,
            hashCalled := true, getCalled := true }
        | none =>
          match liveErr with
          | some e =>
            { rows := .passthrough, err := some e, hits := c.hits, misses := c.misses,
              errors := c.errors, hooks := c.hooks, liveCalled := true,
              hashCalled := true, getCalled := true }
          | none =>
            { rows := .recorder hash (goDurationOfSeconds attrs.ttl) attrs.maxRows,
              err := none, hits := c.hits, misses := c.misses, errors := c.errors,
              hooks := c.hooks, liveCalled := true, hashCalled := true,
              getCalled := true }

/-! ## defaultHashFunc -/

/-- Digit-accumulation loop of `strconv.FormatUint(u, 10)` (also the `%d`
verb of `fmt.Sprintf` for a non-negative int): peel decimal digits from
the low end onto an accumulator.  The fuel only bounds recursion; every
step divides `n` by ten, so fuel `n + 1` never runs out (see the lemmas
below). -/
def goFormatUintAux : Nat → Nat → List Char → List Char
  | 0, _, acc => acc
  | fuel + 1, n, acc =>
    let d := Nat.digitChar (n % 10)
    if n / 10 = 0 then d :: acc
    else goFormatUintAux fuel (n / 10) (d :: acc)

/-- `strconv.FormatUint(n, 10)` / `fmt.Sprintf("%d", n)` for `n ≥ 0`. -/
def goFormatUint (n : Nat) : String :=
  ⟨goFormatUintAux (n + 1) n []⟩

/-- `defaultHashFunc`: structurally hash the (query, args) pair with the
external `hashstructure.Hash` — abstracted as the pure function `digest`,
whose uint64 result is a `Nat` — then compose the key
`fmt.Sprintf("q%da%dh%s", len(query), len(args), FormatUint(u64, 10))`.
`len(query)` is the UTF-8 byte length. -/
def defaultHashFunc (digest : String → List ν → Except ε Nat)
    (query : String) (args : List ν) : Except ε String :=
  match digest query args with
  | .error e => .error e
  | .ok u =>
    .ok ("q" ++ goFormatUint query.utf8ByteSize ++ "a" ++ goFormatUint args.length
        ++ "h" ++ goFormatUint u)

/-! ## Statistics -/

/-- `2 ^ 64`: the modulus of Go's `uint64` counters. -/
def u64size : Nat := 18446744073709551616

/-- `Stats`: the three uint64 counters. -/
structure Stats where
  Hits : Nat
  Misses : Nat
  Errors : Nat
deriving DecidableEq

/-- One completed caching outcome of a query execution. -/
inductive StatEvent where
  | hit : StatEvent
  | miss : StatEvent
  | error : StatEvent
deriving DecidableEq

/-- `atomic.AddUint64(&ctr, 1)`: a single indivisible read-modify-write of
the corresponding counter (wrapping as uint64).  Because the increment is
one atomic step, an arbitrary interleaving of concurrent increments is
exactly an arbitrary sequence of `applyEvent` steps. -/
def applyEvent (s : Stats) : StatEvent → Stats
  | .hit => { s with Hits := (s.Hits + 1) % u64size }
  | .miss => { s with Misses := (s.Misses + 1) % u64size }
  | .error => { s with Errors := (s.Errors + 1) % u64size }

/-- The counter state after a schedule (interleaving order) of completed
events. -/
def runEvents (s : Stats) (es : List StatEvent) : Stats :=
  es.foldl applyEvent s

/-- `Interceptor.Stats()`: three atomic loads building a snapshot. -/
def statsRead (s : Stats) : Stats :=
  { Hits := s.Hits, Misses := s.Misses, Errors := s.Errors }

/-! ## Helper lemmas -/

/-- `goAtoiDigits` never produces a negative value: the regexp only
captures digit runs. -/
theorem goAtoiDigits_nonneg (ds : List Char) : 0 ≤ goAtoiDigits ds := by
  have h1 : (0 : Int) ≤ ((digitsVal 0 ds : Nat) : Int) := Int.ofNat_nonneg _
  have h2 : (0 : Int) ≤ int64Lim := by norm_num [int64Lim]
  exact le_min h1 h2

/-- `applyMatch` preserves non-negativity of both fields. -/
theorem applyMatch_nonneg (a : attributes) (m : String × List Char)
    (h : 0 ≤ a.ttl ∧ 0 ≤ a.maxRows) :
    0 ≤ (applyMatch a m).ttl ∧ 0 ≤ (applyMatch a m).maxRows := by
  unfold applyMatch
  split
  · exact ⟨goAtoiDigits_nonneg _, h.2⟩
  · split
    · exact ⟨h.1, goAtoiDigits_nonneg _⟩
    · exact h

/-- A fold of `applyMatch` starting from non-negative fields stays
non-negative. -/
theorem foldl_applyMatch_nonneg (ms : List (String × List Char)) :
    ∀ a : attributes, 0 ≤ a.ttl ∧ 0 ≤ a.maxRows →
      0 ≤ (ms.foldl applyMatch a).ttl ∧ 0 ≤ (ms.foldl applyMatch a).maxRows := by
  induction ms with
  | nil => intro a h; exact h
  | cons m ms ih => intro a h; exact ih _ (applyMatch_nonneg a m h)

/-- Every parsed policy carries non-negative values: the regexp's `\d+`
admits only digit runs and `Atoi` clamps them into the int64 range. -/
theorem getAttrs_nonneg {q : String} {a : attributes} (h : getAttrs q = some a) :
    0 ≤ a.ttl ∧ 0 ≤ a.maxRows := by
  dsimp only [getAttrs] at h
  split at h
  · exact absurd h (by simp)
  · have := foldl_applyMatch_nonneg ((attrAllMatches q.data).take 2)
      { ttl := 0, maxRows := 0 } (by constructor <;> norm_num)
    cases h
    exact this

/-! ## C3 — when the parser returns a policy -/

/-- C3 (counterexample): the claim says `getAttrs` returns a policy *only
when both* a `@cache-ttl` and a `@cache-max-rows` directive are present,
and returns nil if either is missing.  But a query containing the
`@cache-ttl` directive twice and no `@cache-max-rows` directive at all —
every regexp match in it is a `@cache-ttl` match — still yields a policy
(with the later match winning and `maxRows` left at its zero value). -/
theorem getAttrs_two_ttl_directives_cex :
    getAttrs "-- @cache-ttl 1\n-- @cache-ttl 2\nSELECT name FROM users"
      = some { ttl := 2, maxRows := 0 } ∧
    (attrAllMatches "-- @cache-ttl 1\n-- @cache-ttl 2\nSELECT name FROM users".data).all
      (fun m => m.1 = "@cache-ttl") = true := by
  constructor
  · decide
  · decide

/-- C3 (amended): `getAttrs` returns a caching policy exactly when the
attribute regexp finds at least two directive matches in the query text —
of either kind, not necessarily one of each; each of the first two matches
sets the field of its directive, so both directives being present is
sufficient but two occurrences of the same directive also produce a
policy.  Fewer than two matches yield "no policy" (nil). -/
theorem getAttrs_policy_iff_two_matches (q : String) :
    (getAttrs q).isSome = true ↔ 2 ≤ (attrAllMatches q.data).length := by
  have hlen : ((attrAllMatches q.data).take 2).length = min 2 (attrAllMatches q.data).length :=
    List.length_take _ _
  by_cases h2 : 2 ≤ (attrAllMatches q.data).length
  · have h : ((attrAllMatches q.data).take 2).length = 2 := by
      rw [hlen]; exact Nat.min_eq_left h2
    have hg : getAttrs q
        = some (((attrAllMatches q.data).take 2).foldl applyMatch { ttl := 0, maxRows := 0 }) := by
      dsimp only [getAttrs]
      simp [h]
    rw [hg]
    simp only [Option.isSome_some]
    exact ⟨fun _ => h2, fun _ => trivial⟩
  · have h : ((attrAllMatches q.data).take 2).length ≠ 2 := by
      have hL : (attrAllMatches q.data).length < 2 := Nat.lt_of_not_le h2
      rw [hlen, Nat.min_eq_right (Nat.le_of_lt hL)]
      omega
    have hg : getAttrs q = none := by
      dsimp only [getAttrs]
      simp only [h, ne_eq, not_false_eq_true, if_true]
    rw [hg]
    constructor
    · intro hh; simp at hh
    · intro hh; exact absurd hh h2

/-! ## C5 — unvalidated directive values -/

/-- C5 (counterexample): the claim says a query carrying both directives
where one value is negative still produces a policy with the literal
negative value (e.g. `@cache-ttl -30` yielding `ttl = -30`).  In fact the
regexp's `\d+` never matches a negative literal, so the `@cache-ttl -30`
directive does not count as a match at all, only one match remains, and
the parser returns "no policy" instead of a policy with `ttl = -30`. -/
theorem getAttrs_negative_ttl_cex :
    getAttrs "-- @cache-ttl -30\n-- @cache-max-rows 10\nSELECT name FROM users WHERE age > ?"
      = none := by
  decide

/-- C5 (amended): the parser performs no range validation, but a directive
whose integer is negative (or otherwise not a plain digit run) simply
never matches the regexp and is treated as absent, so such a query yields
no policy rather than a literal negative value; a directive whose digit
run overflows int64 still matches and its `Atoi` range error is discarded,
handing through the clamped maximum int64 value (not zero); zero values
pass through uninspected. -/
theorem attr_values_unvalidated_amended :
    getAttrs "-- @cache-ttl -30\n-- @cache-max-rows 10\nSELECT" = none ∧
    getAttrs "-- @cache-ttl 30\n-- @cache-max-rows 99999999999999999999999\nSELECT"
      = some { ttl := 30, maxRows := int64Lim } ∧
    getAttrs "-- @cache-ttl 0\n-- @cache-max-rows 0\nSELECT"
      = some { ttl := 0, maxRows := 0 } := by
  refine ⟨by decide, by decide, by decide⟩

/-! ## C6 — close errors and the commit decision -/

/-- C6 (counterexample): the claim says that after a clean end-of-data
with no read error and no max-rows overrun, the commit still occurs even
when the underlying cursor's `Close` returns an error.  In fact
`rowsRecorder.Close` returns early on an underlying close error, so the
setter is never invoked, although `gotEOF` holds and `gotErr` and
`maxRowsHit` do not. -/
theorem close_error_suppresses_commit_cex :
    ((rowsRecorder.closeRec (α := Nat) (ε := Unit)
        { itemCols := ["a"], itemRows := [[2]], gotErr := false, gotEOF := true,
          maxRowsHit := false, maxRows := 5 } (some ())).2.2 = false) ∧
    ((rowsRecorder.closeRec (α := Nat) (ε := Unit)
        { itemCols := ["a"], itemRows := [[2]], gotErr := false, gotEOF := true,
          maxRowsHit := false, maxRows := 5 } (some ())).2.1 = some ()) := by
  exact ⟨rfl, rfl⟩

/-- C6 (amended): an error from the underlying cursor's `Close` propagates
to the caller (and a successful close returns nil), and such an error
*always* suppresses the commit — not only when a prior read error was
signalled: the buffered item is committed exactly when the underlying
close succeeded, end-of-data was reached, no read error occurred and the
max-row bound was never hit. -/
theorem close_error_propagates_and_suppresses_commit (α ε : Type)
    (r : rowsRecorder α) (closeErr : Option ε) :
    (r.closeRec closeErr).2.1 = closeErr ∧
    ((r.closeRec closeErr).2.2 = true ↔
      closeErr = none ∧ r.gotEOF = true ∧ r.gotErr = false ∧ r.maxRowsHit = false) := by
  cases closeErr with
  | some e =>
    refine ⟨rfl, ?_⟩
    simp [rowsRecorder.closeRec]
  | none =>
    refine ⟨?_, ?_⟩
    · dsimp only [rowsRecorder.closeRec]
      split <;> rfl
    · dsimp only [rowsRecorder.closeRec]
      by_cases h : (r.gotEOF && !r.gotErr && !r.maxRowsHit) = true
      · simp only [h, if_true]
        simp only [Bool.and_eq_true, Bool.not_eq_true'] at h
        simp [h.1.1, h.1.2, h.2]
      · simp only [h, if_false]
        simp only [Bool.and_eq_true, Bool.not_eq_true'] at h
        constructor
        · intro hc; exact absurd hc (by simp)
        · intro ⟨_, h1, h2, h3⟩; exact absurd ⟨⟨h1, h2⟩, h3⟩ h

/-! ## C7 — disabled interceptor and policy-free queries pass through -/

/-- C7: when the interceptor is disabled, and likewise when the query text
yields no caching policy, both query entry points forward the call
unchanged to the wrapped driver: the live result (rows and error) is
returned as is, no hash key is computed, no `Cacher.Get` is consulted, no
recorder (hence no possible `Cacher.Set`) is installed, and the hit, miss
and error counters and the hook are untouched. -/
theorem disabled_or_no_policy_passthrough (α ε : Type) (query : String)
    (hashRes : Except ε String) (g : GetResult α ε) (liveErr : Option ε) :
    (connQueryContext true query hashRes g liveErr
        = { rows := .passthrough, err := liveErr, hits := 0, misses := 0, errors := 0,
            hooks := [], liveCalled := true, hashCalled := false, getCalled := false } ∧
      stmtQueryContext true query hashRes g liveErr
        = { rows := .passthrough, err := liveErr, hits := 0, misses := 0, errors := 0,
            hooks := [], liveCalled := true, hashCalled := false, getCalled := false }) ∧
    (getAttrs query = none →
      connQueryContext false query hashRes g liveErr
          = { rows := .passthrough, err := liveErr, hits := 0, misses := 0, errors := 0,
              hooks := [], liveCalled := true, hashCalled := false, getCalled := false } ∧
        stmtQueryContext false query hashRes g liveErr
          = { rows := .passthrough, err := liveErr, hits := 0, misses := 0, errors := 0,
              hooks := [], liveCalled := true, hashCalled := false, getCalled := false }) := by
  refine ⟨⟨rfl, rfl⟩, fun h => ⟨?_, ?_⟩⟩
  · simp [connQueryContext, h]
  · simp [stmtQueryContext, h]

/-- C7 (witness): a plain query without directives, against the enabled
interceptor, passes through unchanged. -/
theorem disabled_or_no_policy_passthrough_witness :
    getAttrs "SELECT name FROM users WHERE age > ?" = none ∧
    connQueryContext (α := Nat) (ε := Unit) false "SELECT name FROM users WHERE age > ?"
        (.ok "z") { item := none, ok := false, err := none } none
      = { rows := .passthrough, err := none, hits := 0, misses := 0, errors := 0,
          hooks := [], liveCalled := true, hashCalled := false, getCalled := false } := by
  refine ⟨by decide, ?_⟩
  exact (disabled_or_no_policy_passthrough Nat Unit "SELECT name FROM users WHERE age > ?"
    (.ok "z") { item := none, ok := false, err := none } none).2 (by decide) |>.1

/-! ## C10 — the hit path assumes a non-nil item -/

/-- C10: on a hit (`found = true`, no error) `checkCache` wraps whatever
item pointer the backend returned — including nil — into a `rowsCached`
cursor without a nil check; that cursor's `Columns` and `Next` dereference
the pointer, so they panic (modelled as `none`) exactly on a nil item and
are total whenever the item is non-nil, as the `Cacher` contract
requires. -/
theorem hit_path_requires_nonnil_item (α ε : Type) (item? : Option (Item α)) :
    (checkCache (ε := ε) { item := item?, ok := true, err := none }).rows
        = some { item := item?, ptr := 0 } ∧
    rowsCached.columns (α := α) { item := none, ptr := 0 } = none ∧
    (∀ (ptr : Nat) (dest : List α),
      rowsCached.next (ε := ε) { item := none, ptr := ptr } dest = none) ∧
    (∀ it : Item α, rowsCached.columns { item := some it, ptr := 0 } = some it.Cols) ∧
    (∀ (it : Item α) (ptr : Nat) (dest : List α),
      (rowsCached.next (ε := ε) { item := some it, ptr := ptr } dest).isSome = true) := by
  refine ⟨rfl, rfl, fun ptr dest => rfl, fun it => rfl, fun it ptr dest => rfl⟩

/-! ## C9 — exact counters under any interleaving -/

/-- Characterization of a schedule of atomic counter increments: starting
from counters below the uint64 modulus, each counter ends at its exact
(wrapped) total, independent of the order of events. -/
theorem runEvents_characterization (es : List StatEvent) :
    ∀ s : Stats, s.Hits < u64size → s.Misses < u64size → s.Errors < u64size →
      runEvents s es = { Hits := (s.Hits + es.count .hit) % u64size,
                         Misses := (s.Misses + es.count .miss) % u64size,
                         Errors := (s.Errors + es.count .error) % u64size } := by
  have hM : 0 < u64size := by norm_num [u64size]
  induction es with
  | nil =>
    intro s h1 h2 h3
    simp only [runEvents, List.foldl_nil, List.count_nil, Nat.add_zero]
    rw [Nat.mod_eq_of_lt h1, Nat.mod_eq_of_lt h2, Nat.mod_eq_of_lt h3]
  | cons e es ih =>
    intro s h1 h2 h3
    have step : runEvents s (e :: es) = runEvents (applyEvent s e) es := rfl
    rw [step]
    cases e with
    | hit =>
      rw [ih (applyEvent s .hit) (Nat.mod_lt _ hM) h2 h3]
      simp only [applyEvent, List.count_cons, Stats.mk.injEq]
      refine ⟨?_, ?_, ?_⟩ <;> (simp [Nat.mod_add_mod]; try (congr 1; omega))
    | miss =>
      rw [ih (applyEvent s .miss) h1 (Nat.mod_lt _ hM) h3]
      simp only [applyEvent, List.count_cons, Stats.mk.injEq]
      refine ⟨?_, ?_, ?_⟩ <;> (simp [Nat.mod_add_mod]; try (congr 1; omega))
    | error =>
      rw [ih (applyEvent s .error) h1 h2 (Nat.mod_lt _ hM)]
      simp only [applyEvent, List.count_cons, Stats.mk.injEq]
      refine ⟨?_, ?_, ?_⟩ <;> (simp [Nat.mod_add_mod]; try (congr 1; omega))

/-- C9: each completed query execution contributes one hit, miss or error
event, and each event is a single atomic `AddUint64` step, so an
interleaving of N concurrent executions is an arbitrary schedule of their
events.  After any such schedule (of fewer than 2^64 events) the counters
read by `Stats()` are exact — the hit, miss and error counters equal the
number of corresponding events, so no update is lost — and any
permutation of the same events (any other interleaving) produces the same
counters. -/
theorem stats_counters_exact_after_concurrent_events (es : List StatEvent)
    (h : es.length < u64size) :
    statsRead (runEvents { Hits := 0, Misses := 0, Errors := 0 } es)
        = { Hits := es.count .hit, Misses := es.count .miss, Errors := es.count .error } ∧
    ∀ es' : List StatEvent, es'.Perm es →
      runEvents { Hits := 0, Misses := 0, Errors := 0 } es'
        = runEvents { Hits := 0, Misses := 0, Errors := 0 } es := by
  have hM : 0 < u64size := by norm_num [u64size]
  have hrun : ∀ l : List StatEvent, l.length < u64size →
      runEvents { Hits := 0, Misses := 0, Errors := 0 } l
        = { Hits := l.count .hit, Misses := l.count .miss, Errors := l.count .error } := by
    intro l hl
    rw [runEvents_characterization l { Hits := 0, Misses := 0, Errors := 0 } hM hM hM]
    have c1 : l.count .hit ≤ l.length := List.count_le_length _ _
    have c2 : l.count .miss ≤ l.length := List.count_le_length _ _
    have c3 : l.count .error ≤ l.length := List.count_le_length _ _
    simp only [Stats.mk.injEq, Nat.zero_add]
    exact ⟨Nat.mod_eq_of_lt (lt_of_le_of_lt c1 hl), Nat.mod_eq_of_lt (lt_of_le_of_lt c2 hl),
      Nat.mod_eq_of_lt (lt_of_le_of_lt c3 hl)⟩
  constructor
  · rw [hrun es h]; rfl
  · intro es' hp
    have h' : es'.length < u64size := by rw [hp.length_eq]; exact h
    rw [hrun es h, hrun es' h', hp.count_eq, hp.count_eq, hp.count_eq]

/-- C9 (witness): four completed events in one interleaving give exact
counters, and a different interleaving of the same events agrees. -/
theorem stats_counters_exact_witness :
    ([StatEvent.hit, StatEvent.miss, StatEvent.hit, StatEvent.error].length < u64size) ∧
    statsRead (runEvents { Hits := 0, Misses := 0, Errors := 0 }
        [StatEvent.hit, StatEvent.miss, StatEvent.hit, StatEvent.error])
      = { Hits := 2, Misses := 1, Errors := 1 } ∧
    runEvents { Hits := 0, Misses := 0, Errors := 0 }
        [StatEvent.hit, StatEvent.hit, StatEvent.miss, StatEvent.error]
      = runEvents { Hits := 0, Misses := 0, Errors := 0 }
        [StatEvent.hit, StatEvent.miss, StatEvent.hit, StatEvent.error] := by
  refine ⟨by norm_num [u64size], ?_, ?_⟩
  · exact ((stats_counters_exact_after_concurrent_events _ (by norm_num [u64size])).1).trans
      (by decide)
  · exact (stats_counters_exact_after_concurrent_events _ (by norm_num [u64size])).2 _
      (by decide)

/-! ## C2 — cache hits replay the cached item -/

/-- `copy(dest, src)` with a destination of matching length reproduces the
source row exactly. -/
theorem goCopy_eq_src (dest src : List α) (h : dest.length = src.length) :
    goCopy dest src = src := by
  simp only [goCopy, h, Nat.min_self, List.take_length]
  rw [← h, List.drop_length, List.append_nil]

/-- C2: on a cache hit (`Get` returns an item with `found = true` and no
error) the interceptor increments only the hit counter and returns a
cached cursor over the item without issuing the live query; that cursor's
`Columns` yields the cached column names, its k-th `Next` (position `k`,
destination sized like the row, as `database/sql` sizes it by the column
count) yields exactly cached row `k` and advances to `k + 1`, the first
`Next` at or past the row count signals `io.EOF`, and `Close` returns
nil. -/
theorem cache_hit_returns_cached_replay (α ε : Type) (query : String) (attrs : attributes)
    (hash : String) (item : Item α) (liveErr : Option ε)
    (hq : getAttrs query = some attrs) :
    connQueryContext false query (.ok hash)
        { item := some item, ok := true, err := none } liveErr
      = { rows := .cached { item := some item, ptr := 0 }, err := none, hits := 1,
          misses := 0, errors := 0, hooks := [], liveCalled := false,
          hashCalled := true, getCalled := true } ∧
    rowsCached.columns (α := α) { item := some item, ptr := 0 } = some item.Cols ∧
    (∀ (k : Nat) (dest : List α), k < item.Rows.length →
      dest.length = (item.Rows.getD k []).length →
      rowsCached.next (ε := ε) { item := some item, ptr := k } dest
        = some (.nil, item.Rows.getD k [], { item := some item, ptr := k + 1 })) ∧
    (∀ (k : Nat) (dest : List α), item.Rows.length ≤ k →
      rowsCached.next (ε := ε) { item := some item, ptr := k } dest
        = some (.eof, dest, { item := some item, ptr := k })) ∧
    rowsCached.closeRec (ε := ε) ({ item := some item, ptr := 0 } : rowsCached α) = none := by
  refine ⟨?_, rfl, ?_, ?_, rfl⟩
  · simp [connQueryContext, hq, checkCache]
  · intro k dest hk hlen
    have hcond : ¬ (item.Rows.length ≤ k) := Nat.not_le.mpr hk
    simp [rowsCached.next, itemNext, hcond]
    exact goCopy_eq_src dest _ (by simpa using hlen)
  · intro k dest hk
    simp [rowsCached.next, itemNext, hk]

/-- C2 (witness): a concrete hit over a two-row item replays the first
row. -/
theorem cache_hit_returns_cached_replay_witness :
    getAttrs "-- @cache-ttl 30\n-- @cache-max-rows 10\nSELECT name"
        = some { ttl := 30, maxRows := 10 } ∧
    connQueryContext (α := Nat) (ε := Unit) false
        "-- @cache-ttl 30\n-- @cache-max-rows 10\nSELECT name" (.ok "k")
        { item := some { Cols := ["name"], Rows := [[3], [4]] }, ok := true, err := none } none
      = { rows := .cached { item := some { Cols := ["name"], Rows := [[3], [4]] }, ptr := 0 },
          err := none, hits := 1, misses := 0, errors := 0, hooks := [],
          liveCalled := false, hashCalled := true, getCalled := true } ∧
    rowsCached.next (ε := Unit)
        { item := some { Cols := ["name"], Rows := [[3], [4]] }, ptr := 0 } [0]
      = some (.nil, [3], { item := some { Cols := ["name"], Rows := [[3], [4]] }, ptr := 1 }) := by
  refine ⟨by decide, ?_, ?_⟩
  · exact (cache_hit_returns_cached_replay Nat Unit _ { ttl := 30, maxRows := 10 } "k" _ none
      (by decide)).1
  · exact (cache_hit_returns_cached_replay Nat Unit
      "-- @cache-ttl 30\n-- @cache-max-rows 10\nSELECT name" { ttl := 30, maxRows := 10 } "k"
      { Cols := ["name"], Rows := [[3], [4]] } none (by decide)).2.2.1 0 [0]
      (by decide) (by decide)

/-! ## C4 — caching-side failures never degrade the query -/

/-- C4: for a cached-policy query, a key-generation failure yields exactly
one error-counter increment and one hook call with the wrapped HashFunc
error, and the live query's rows and error are returned unchanged; a
backend `Get` failure likewise increments only the error counter and
invokes the hook with the wrapped Get error, the rest of the outcome
being identical to a plain cache miss (including the recorder-wrapped
live result); a backend `Set` failure after a successful live execution
increments the error counter and invokes the hook with the wrapped Set
error while a successful `Set` does neither; and the recorder wrapper is
observation-transparent — its `Next` returns exactly the underlying
cursor's error and its `Close` returns exactly the underlying close
result — so the caller-visible result is never degraded. -/
theorem cache_errors_never_fail_query (α ε : Type) (query : String) (attrs : attributes)
    (hash : String) (hq : getAttrs query = some attrs) :
    (∀ (e : ε) (g : GetResult α ε) (liveErr : Option ε),
      connQueryContext false query (.error e) g liveErr
        = { rows := .passthrough, err := liveErr, hits := 0, misses := 0, errors := 1,
            hooks := [.hashFuncFailed e], liveCalled := true, hashCalled := true,
            getCalled := false }) ∧
    (∀ (e : ε) (item? : Option (Item α)) (ok : Bool) (liveErr : Option ε),
      connQueryContext false query (.ok hash)
          { item := item?, ok := ok, err := some e } liveErr
        = { connQueryContext false query (.ok hash)
              ({ item := none, ok := false, err := none } : GetResult α ε) liveErr with
            misses := 0, errors := 1, hooks := [.cacheGetFailed e] }) ∧
    (∀ e : ε, cacheSetterEffect (some e) = (1, [.cacheSetFailed e])) ∧
    (cacheSetterEffect (none : Option ε) = ((0 : Nat), ([] : List (WrappedErr ε)))) ∧
    (∀ (r : rowsRecorder α) (res : NextRes α ε), (r.next res).2 = res.retErr) ∧
    (∀ (r : rowsRecorder α) (closeErr : Option ε),
      (r.closeRec closeErr).2.1 = closeErr) := by
  refine ⟨?_, ?_, fun e => rfl, rfl, ?_, ?_⟩
  · intro e g liveErr
    simp [connQueryContext, hq]
  · intro e item? ok liveErr
    cases liveErr <;> simp [connQueryContext, hq, checkCache]
  · intro r res
    cases res <;> simp only [rowsRecorder.next, NextRes.retErr] <;> (repeat' split) <;> rfl
  · intro r closeErr
    cases closeErr with
    | none => dsimp only [rowsRecorder.closeRec]; split <;> rfl
    | some e => rfl

/-- C4 (witness): a concrete hash failure passes the live result through
while counting one error and invoking the hook once. -/
theorem cache_errors_never_fail_query_witness :
    getAttrs "-- @cache-ttl 30\n-- @cache-max-rows 10\nSELECT x"
        = some { ttl := 30, maxRows := 10 } ∧
    connQueryContext (α := Nat) (ε := Unit) false
        "-- @cache-ttl 30\n-- @cache-max-rows 10\nSELECT x" (.error ())
        { item := none, ok := false, err := none } none
      = { rows := .passthrough, err := none, hits := 0, misses := 0, errors := 1,
          hooks := [.hashFuncFailed ()], liveCalled := true, hashCalled := true,
          getCalled := false } := by
  refine ⟨by decide, ?_⟩
  exact (cache_errors_never_fail_query Nat Unit _ { ttl := 30, maxRows := 10 } "k"
    (by decide)).1 () { item := none, ok := false, err := none } none

/-! ## C8 — the default hash key format -/

/-- The formatting loop ignores its fuel as long as the fuel exceeds the
number being formatted. -/
theorem goFormatUintAux_fuel : ∀ (f1 : Nat) {f2 n : Nat} (acc : List Char),
    n < f1 → n < f2 → goFormatUintAux f1 n acc = goFormatUintAux f2 n acc := by
  intro f1
  induction f1 with
  | zero => intro f2 n acc h1 _; exact absurd h1 (Nat.not_lt_zero n)
  | succ g ih =>
    intro f2 n acc h1 h2
    cases f2 with
    | zero => exact absurd h2 (Nat.not_lt_zero n)
    | succ f =>
      simp only [goFormatUintAux]
      by_cases hq : n / 10 = 0
      · simp [hq]
      · simp only [hq, if_false]
        have hn : 0 < n := by omega
        have hlt : n / 10 < n := Nat.div_lt_self hn (by omega)
        exact ih _ (by omega) (by omega)

/-- The accumulator of the formatting loop is simply appended to the
digits of the number. -/
theorem goFormatUintAux_accum (n : Nat) : ∀ acc : List Char,
    goFormatUintAux (n + 1) n acc = goFormatUintAux (n + 1) n [] ++ acc := by
  induction n using Nat.strong_induction_on with
  | _ n ih =>
    intro acc
    simp only [goFormatUintAux]
    by_cases hq : n / 10 = 0
    · simp [hq]
    · simp only [hq, if_false]
      have hn : 0 < n := by omega
      have hlt : n / 10 < n := Nat.div_lt_self hn (by omega)
      have e1 : goFormatUintAux n (n / 10) (Nat.digitChar (n % 10) :: acc)
          = goFormatUintAux (n / 10 + 1) (n / 10) (Nat.digitChar (n % 10) :: acc) :=
        goFormatUintAux_fuel n _ (by omega) (by omega)
      have e2 : goFormatUintAux n (n / 10) [Nat.digitChar (n % 10)]
          = goFormatUintAux (n / 10 + 1) (n / 10) [Nat.digitChar (n % 10)] :=
        goFormatUintAux_fuel n _ (by omega) (by omega)
      rw [e1, e2, ih (n / 10) hlt (Nat.digitChar (n % 10) :: acc),
        ih (n / 10) hlt [Nat.digitChar (n % 10)]]
      simp

/-- The ten digit characters evaluate and decode as expected. -/
theorem digitChar_facts (m : Nat) (h : m < 10) :
    (Nat.digitChar m).toNat - 48 = m ∧ (Nat.digitChar m).isDigit = true := by
  interval_cases m <;> exact ⟨by decide, by decide⟩

/-- `digitsVal` distributes over list append. -/
theorem digitsVal_append (a : Nat) (xs ys : List Char) :
    digitsVal a (xs ++ ys) = digitsVal (digitsVal a xs) ys := by
  simp [digitsVal, List.foldl_append]

/-- The formatting loop produces only digit characters. -/
theorem goFormatUintAux_all_digits (n : Nat) :
    (goFormatUintAux (n + 1) n []).all Char.isDigit = true := by
  induction n using Nat.strong_induction_on with
  | _ n ih =>
    have hd := (digitChar_facts (n % 10) (Nat.mod_lt _ (by norm_num))).2
    simp only [goFormatUintAux]
    by_cases hq : n / 10 = 0
    · simp [hq, hd]
    · simp only [hq, if_false]
      have hn : 0 < n := by omega
      have hlt : n / 10 < n := Nat.div_lt_self hn (by omega)
      have e2 : goFormatUintAux n (n / 10) [Nat.digitChar (n % 10)]
          = goFormatUintAux (n / 10 + 1) (n / 10) [Nat.digitChar (n % 10)] :=
        goFormatUintAux_fuel n _ (by omega) (by omega)
      rw [e2, goFormatUintAux_accum (n / 10) [Nat.digitChar (n % 10)]]
      simp [List.all_append, hd, ih (n / 10) hlt]

/-- Decoding the digits produced by the formatting loop recovers the
number: the loop really is the decimal rendering. -/
theorem digitsVal_goFormatUintAux (n : Nat) :
    digitsVal 0 (goFormatUintAux (n + 1) n []) = n := by
  induction n using Nat.strong_induction_on with
  | _ n ih =>
    have hd := (digitChar_facts (n % 10) (Nat.mod_lt _ (by norm_num))).1
    simp only [goFormatUintAux]
    by_cases hq : n / 10 = 0
    · have hn : n < 10 := by omega
      have hm : n % 10 = n := Nat.mod_eq_of_lt hn
      simp only [hq, if_true, digitsVal, List.foldl_cons, List.foldl_nil]
      rw [hm] at hd ⊢
      omega
    · simp only [hq, if_false]
      have hn : 0 < n := by omega
      have hlt : n / 10 < n := Nat.div_lt_self hn (by omega)
      have e2 : goFormatUintAux n (n / 10) [Nat.digitChar (n % 10)]
          = goFormatUintAux (n / 10 + 1) (n / 10) [Nat.digitChar (n % 10)] :=
        goFormatUintAux_fuel n _ (by omega) (by omega)
      rw [e2, goFormatUintAux_accum (n / 10) [Nat.digitChar (n % 10)],
        digitsVal_append, ih (n / 10) hlt]
      simp only [digitsVal, List.foldl_cons, List.foldl_nil]
      rw [hd]
      omega

/-- C8: when the structural digest succeeds, the default hash key is the
concatenation of `q`, the decimal rendering of the query's byte length,
`a`, the decimal rendering of the parameter count, and `h`, the decimal
rendering of the digest (each rendering consists of digit characters only
and decodes back to the number it encodes), and two invocations on
identical text and identical parameter values return identical keys. -/
theorem defaultHashFunc_key_format (ν ε : Type) (digest : String → List ν → Except ε Nat)
    (query : String) (args : List ν) (u : Nat) (h : digest query args = .ok u) :
    defaultHashFunc digest query args
      = .ok ("q" ++ goFormatUint query.utf8ByteSize ++ "a" ++ goFormatUint args.length
          ++ "h" ++ goFormatUint u) ∧
    (∀ m : Nat, (goFormatUint m).data.all Char.isDigit = true ∧
      digitsVal 0 (goFormatUint m).data = m) ∧
    (∀ (query2 : String) (args2 : List ν), query2 = query → args2 = args →
      defaultHashFunc digest query2 args2 = defaultHashFunc digest query args) := by
  refine ⟨?_, fun m => ⟨goFormatUintAux_all_digits m, digitsVal_goFormatUintAux m⟩,
    fun q2 a2 h1 h2 => by rw [h1, h2]⟩
  simp [defaultHashFunc, h]

/-- C8 (witness): the key for a concrete query, parameter list and digest
value. -/
theorem defaultHashFunc_key_format_witness :
    (fun (_ : String) (_ : List Nat) => (Except.ok 12345 : Except Unit Nat)) "SELECT" [7]
        = Except.ok 12345 ∧
    defaultHashFunc (fun (_ : String) (_ : List Nat) => (Except.ok 12345 : Except Unit Nat))
        "SELECT" [7] = .ok "q6a1h12345" := by
  refine ⟨rfl, ?_⟩
  exact ((defaultHashFunc_key_format Nat Unit
    (fun _ _ => Except.ok 12345) "SELECT" [7] 12345 rfl).1).trans (by rfl)

/-! ## C1 — when the buffered item is committed -/

/-- `recRun` is a fold of `recStep` from the state after `Columns`. -/
theorem recRun_eq_foldl (maxRows : Int) (cols : List String)
    (trace : List (NextRes α ε)) :
    recRun maxRows cols trace
      = trace.foldl recStep
          (⟨cols, [], false, false, false, maxRows⟩ : rowsRecorder α) := rfl

/-- Once the max-rows bound has been hit, further rows pass through the
recorder without changing its state. -/
theorem recFold_rows_maxHit (rows : List (List α)) :
    ∀ r : rowsRecorder α, r.maxRowsHit = true →
      (rows.map (NextRes.row (ε := ε))).foldl recStep r = r := by
  induction rows with
  | nil => intro r _; rfl
  | cons d rest ih =>
    intro r h
    have hstep : recStep r (NextRes.row (ε := ε) d) = r := by
      simp [recStep, rowsRecorder.next, h]
    simp only [List.map_cons, List.foldl_cons, hstep]
    exact ih r h

/-- Row-consumption phase of the recorder: starting from a clean state
holding `acc` buffered rows (within the bound `m`), consuming `rows`
either buffers them all (when the total stays within the bound) or
buffers exactly up to the bound and marks the bound as hit. -/
theorem recFold_rows (m : Nat) (cols : List String) :
    ∀ (rows acc : List (List α)), acc.length ≤ m →
      (rows.map (NextRes.row (ε := ε))).foldl recStep
          (⟨cols, acc, false, false, false, (m : Int)⟩ : rowsRecorder α)
        = if acc.length + rows.length ≤ m then
            (⟨cols, acc ++ rows, false, false, false, (m : Int)⟩ : rowsRecorder α)
          else
            (⟨cols, (acc ++ rows).take m, false, false, true, (m : Int)⟩ : rowsRecorder α) := by
  intro rows
  induction rows with
  | nil =>
    intro acc hacc
    simp only [List.map_nil, List.foldl_nil, List.append_nil, List.length_nil, Nat.add_zero]
    rw [if_pos hacc]
  | cons d rest ih =>
    intro acc hacc
    simp only [List.map_cons, List.foldl_cons]
    by_cases heq : acc.length = m
    · have hstep : recStep (⟨cols, acc, false, false, false, (m : Int)⟩ : rowsRecorder α)
          (NextRes.row (ε := ε) d)
          = (⟨cols, acc, false, false, true, (m : Int)⟩ : rowsRecorder α) := by
        simp [recStep, rowsRecorder.next, heq]
      have h2 : ¬ (acc.length + (d :: rest).length ≤ m) := by
        simp only [List.length_cons]
        omega
      have htake : (acc ++ d :: rest).take m = acc := by
        rw [List.take_append_eq_append_take]
        simp [heq]
      rw [hstep, recFold_rows_maxHit rest _ rfl, if_neg h2, htake]
    · have hlt : acc.length < m := lt_of_le_of_ne hacc heq
      have hne : ¬ ((acc.length : Int) = (m : Int)) := by exact_mod_cast heq
      have hstep : recStep (⟨cols, acc, false, false, false, (m : Int)⟩ : rowsRecorder α)
          (NextRes.row (ε := ε) d)
          = (⟨cols, acc ++ [d], false, false, false, (m : Int)⟩ : rowsRecorder α) := by
        simp [recStep, rowsRecorder.next, hne]
      have hlen1 : (acc ++ [d]).length ≤ m := by
        simp only [List.length_append, List.length_cons, List.length_nil]
        omega
      rw [hstep, ih (acc ++ [d]) hlen1]
      by_cases hc : acc.length + (rest.length + 1) ≤ m
      · have h1 : (acc ++ [d]).length + rest.length ≤ m := by
          simp only [List.length_append, List.length_cons, List.length_nil]
          omega
        have h2 : acc.length + (d :: rest).length ≤ m := by
          simp only [List.length_cons]
          omega
        rw [if_pos h1, if_pos h2]
        simp
      · have h1 : ¬ ((acc ++ [d]).length + rest.length ≤ m) := by
          simp only [List.length_append, List.length_cons, List.length_nil]
          omega
        have h2 : ¬ (acc.length + (d :: rest).length ≤ m) := by
          simp only [List.length_cons]
          omega
        rw [if_neg h1, if_neg h2]
        simp

/-- Full characterization of the `Cacher.Set` calls of one miss-path
consumption: exactly one call — carrying the captured columns, all the
yielded rows and the configured TTL — occurs precisely when the cursor
ended with `io.EOF`, the yielded rows stayed within the bound, and the
underlying `Close` succeeded; every other outcome commits nothing. -/
theorem missSetCalls_characterization [DecidableEq ε] (key : String) (ttlNs : Int)
    (m : Nat) (cols : List String) (rows : List (List α)) (t : TraceEnd ε)
    (closeErr : Option ε) :
    missSetCalls key ttlNs (m : Int) cols (mkTrace rows t) closeErr
      = if t = TraceEnd.eofEnd ∧ rows.length ≤ m ∧ closeErr = none
        then [⟨key, ⟨cols, rows⟩, ttlNs⟩]
        else [] := by
  have hbase := recFold_rows (ε := ε) m cols rows [] (Nat.zero_le m)
  simp only [List.nil_append, List.length_nil, Nat.zero_add] at hbase
  have hrun : recRun ((m : Nat) : Int) cols (mkTrace rows t)
      = (mkTrace rows t).foldl recStep
          (⟨cols, [], false, false, false, (m : Int)⟩ : rowsRecorder α) :=
    recRun_eq_foldl _ _ _
  unfold missSetCalls
  rw [hrun]
  unfold mkTrace
  rw [List.foldl_append, hbase]
  by_cases hle : rows.length ≤ m
  · rw [if_pos hle]
    cases t with
    | eofEnd =>
      have hstep : (⟨cols, rows, false, false, false, (m : Int)⟩ : rowsRecorder α).next
          (NextRes.eof (α := α) (ε := ε))
          = ((⟨cols, rows, false, true, false, (m : Int)⟩ : rowsRecorder α), GoErr.eof) := by
        simp [rowsRecorder.next, NextRes.retErr]
      simp only [TraceEnd.toTrace, List.foldl_cons, List.foldl_nil, recStep, hstep]
      cases closeErr with
      | none => simp [rowsRecorder.closeRec, hle]
      | some e => simp [rowsRecorder.closeRec]
    | errEnd e =>
      have hstep : (⟨cols, rows, false, false, false, (m : Int)⟩ : rowsRecorder α).next
          (NextRes.err (α := α) e)
          = ((⟨cols, rows, true, false, false, (m : Int)⟩ : rowsRecorder α), GoErr.err e) := by
        simp [rowsRecorder.next, NextRes.retErr]
      simp only [TraceEnd.toTrace, List.foldl_cons, List.foldl_nil, recStep, hstep]
      cases closeErr <;> simp [rowsRecorder.closeRec]
    | stopEnd =>
      simp only [TraceEnd.toTrace, List.foldl_nil]
      cases closeErr <;> simp [rowsRecorder.closeRec]
  · rw [if_neg hle]
    cases t with
    | eofEnd =>
      have hstep : (⟨cols, rows.take m, false, false, true, (m : Int)⟩ : rowsRecorder α).next
          (NextRes.eof (α := α) (ε := ε))
          = ((⟨cols, rows.take m, false, true, true, (m : Int)⟩ : rowsRecorder α),
             GoErr.eof) := by
        simp [rowsRecorder.next, NextRes.retErr]
      simp only [TraceEnd.toTrace, List.foldl_cons, List.foldl_nil, recStep, hstep]
      cases closeErr <;> simp [rowsRecorder.closeRec, hle]
    | errEnd e =>
      have hstep : (⟨cols, rows.take m, false, false, true, (m : Int)⟩ : rowsRecorder α).next
          (NextRes.err (α := α) e)
          = ((⟨cols, rows.take m, true, false, true, (m : Int)⟩ : rowsRecorder α),
             GoErr.err e) := by
        simp [rowsRecorder.next, NextRes.retErr]
      simp only [TraceEnd.toTrace, List.foldl_cons, List.foldl_nil, recStep, hstep]
      cases closeErr <;> simp [rowsRecorder.closeRec]
    | stopEnd =>
      simp only [TraceEnd.toTrace, List.foldl_nil]
      cases closeErr <;> simp [rowsRecorder.closeRec]

/-- C1 (counterexample): the claim says the buffered item is committed
upon `Close` *iff* the cursor reached end-of-data with no read error and
within the max-row bound.  Here a policy query's recorder consumes two
rows (within the bound 10) and a clean `io.EOF`, so the claim's condition
holds, yet no `Cacher.Set` call occurs because the underlying `Close`
returned an error. -/
theorem cached_query_commit_iff_cex :
    getAttrs "-- @cache-ttl 7\n-- @cache-max-rows 10\nSELECT"
        = some { ttl := 7, maxRows := 10 } ∧
    missSetCalls (α := Nat) (ε := Unit) "k" 7000000000 10 ["c"]
        (mkTrace [[1], [2]] TraceEnd.eofEnd) (some ()) = [] := by
  exact ⟨by decide, by decide⟩

/-- C1 (amended): for a cached-policy query that missed the cache, the
miss path installs a recorder carrying the hash key, the parsed TTL (as a
Go duration, `ttl` seconds whenever that fits int64) and the parsed
max-row bound; and the buffered item — the captured column names and all
the yielded rows — is committed by exactly one `Cacher.Set` call with
that TTL upon `Close` if and only if the cursor reached end-of-data, no
read error occurred, the yielded rows never exceeded the parsed max-row
bound, *and the underlying cursor's `Close` returned nil*; a cursor
yielding more rows than the bound, or erroring before end-of-data, or
whose `Close` fails, never triggers a cache write, regardless of whether
it was fully drained. -/
theorem cached_query_commit_iff (α ε : Type) [DecidableEq ε] (query : String)
    (attrs : attributes) (hash : String) (hq : getAttrs query = some attrs) :
    (connQueryContext (α := α) (ε := ε) false query (.ok hash)
        { item := none, ok := false, err := none } none).rows
      = .recorder hash (goDurationOfSeconds attrs.ttl) attrs.maxRows ∧
    (attrs.ttl * nsPerSecond < 2 ^ 63 →
      goDurationOfSeconds attrs.ttl = attrs.ttl * nsPerSecond) ∧
    (∀ (key : String) (ttlNs : Int) (cols : List String) (rows : List (List α))
        (t : TraceEnd ε) (closeErr : Option ε),
      missSetCalls key ttlNs attrs.maxRows cols (mkTrace rows t) closeErr
        = if t = TraceEnd.eofEnd ∧ (rows.length : Int) ≤ attrs.maxRows ∧ closeErr = none
          then [⟨key, ⟨cols, rows⟩, ttlNs⟩]
          else []) := by
  obtain ⟨httl, hmr⟩ := getAttrs_nonneg hq
  refine ⟨?_, ?_, ?_⟩
  · simp [connQueryContext, hq, checkCache]
  · intro hov
    have hx : (0 : Int) ≤ attrs.ttl * nsPerSecond := by
      have : (0 : Int) < nsPerSecond := by norm_num [nsPerSecond]
      positivity
    have h1 : (0 : Int) ≤ attrs.ttl * nsPerSecond + 2 ^ 63 := by omega
    have h2 : attrs.ttl * nsPerSecond + 2 ^ 63 < 2 ^ 64 := by omega
    unfold goDurationOfSeconds wrap64
    rw [Int.emod_eq_of_lt h1 h2]
    omega
  · intro key ttlNs cols rows t closeErr
    obtain ⟨m, hm⟩ : ∃ m : Nat, attrs.maxRows = (m : Int) :=
      ⟨attrs.maxRows.toNat, (Int.toNat_of_nonneg hmr).symm⟩
    rw [hm, missSetCalls_characterization key ttlNs m cols rows t closeErr]
    refine if_congr ?_ rfl rfl
    constructor
    · rintro ⟨h1, h2, h3⟩
      exact ⟨h1, by exact_mod_cast h2, h3⟩
    · rintro ⟨h1, h2, h3⟩
      exact ⟨h1, by exact_mod_cast h2, h3⟩

/-- C1 (witness): a concrete miss-path consumption — two rows within the
bound 2, clean EOF, successful close — commits exactly one `Set` call
with the captured columns, both rows and the configured TTL. -/
theorem cached_query_commit_iff_witness :
    getAttrs "-- @cache-ttl 5\n-- @cache-max-rows 2\nSELECT"
        = some { ttl := 5, maxRows := 2 } ∧
    missSetCalls (α := Nat) (ε := Unit) "k" 5000000000 2 ["c"]
        (mkTrace [[1], [2]] TraceEnd.eofEnd) none
      = [⟨"k", ⟨["c"], [[1], [2]]⟩, 5000000000⟩] := by
  refine ⟨by decide, ?_⟩
  have h := (cached_query_commit_iff Nat Unit "-- @cache-ttl 5\n-- @cache-max-rows 2\nSELECT"
    { ttl := 5, maxRows := 2 } "k" (by decide)).2.2 "k" 5000000000 ["c"] [[1], [2]]
    TraceEnd.eofEnd none
  exact h.trans (by decide)

end Sqlcache
